import Mathlib

/-!
Verification of `source_acceptance_test/utils/json_schema_helper.py`.

The module is a JSON-Schema introspection engine: it resolves property
paths against a schema tree (`JsonSchemaHelper.get_property` / `get_ref`),
extracts and coerces field values out of records (`CatalogField`),
discovers and validates `oneOf` / `anyOf` variant sites
(`find_variant_paths` / `validate_variant_paths`), and projects leaf-path
structure out of records and schemas (`get_object_structure` /
`get_expected_schema_structure`).

We embed the Python data model shallowly: JSON values become the
inductive `Json`; Python dicts are ordered association lists (CPython
dicts preserve insertion order); Python exceptions become `Except PyErr`
results.
-/

/-- A JSON value, as manipulated by the Python module.  Objects are
ordered association lists, mirroring CPython's insertion-ordered dicts. -/
inductive Json where
  | null
  | bool (b : Bool)
  | num (n : Int)
  | str (s : String)
  | arr (elems : List Json)
  | obj (fields : List (String × Json))
  deriving Repr

mutual

/-- Structural equality of JSON values (Python `==`). -/
def Json.beq : Json → Json → Bool
  | .null, .null => true
  | .bool a, .bool b => a == b
  | .num a, .num b => a == b
  | .str a, .str b => a == b
  | .arr as, .arr bs => Json.beqList as bs
  | .obj as, .obj bs => Json.beqFields as bs
  | _, _ => false

def Json.beqList : List Json → List Json → Bool
  | [], [] => true
  | a :: as, b :: bs => Json.beq a b && Json.beqList as bs
  | _, _ => false

def Json.beqFields : List (String × Json) → List (String × Json) → Bool
  | [], [] => true
  | (k, v) :: as, (k', v') :: bs => k == k' && Json.beq v v' && Json.beqFields as bs
  | _, _ => false

end

mutual

theorem Json.eq_of_beq : (a b : Json) → Json.beq a b = true → a = b
  | .null, .null, _ => rfl
  | .bool _, .bool _, h => by simp only [Json.beq, beq_iff_eq] at h; rw [h]
  | .num _, .num _, h => by simp only [Json.beq, beq_iff_eq] at h; rw [h]
  | .str _, .str _, h => by simp only [Json.beq, beq_iff_eq] at h; rw [h]
  | .arr as, .arr bs, h => by
      rw [Json.eqList_of_beqList as bs (by simpa only [Json.beq] using h)]
  | .obj as, .obj bs, h => by
      rw [Json.eqFields_of_beqFields as bs (by simpa only [Json.beq] using h)]
  | .null, .bool _, h => by simp [Json.beq] at h
  | .null, .num _, h => by simp [Json.beq] at h
  | .null, .str _, h => by simp [Json.beq] at h
  | .null, .arr _, h => by simp [Json.beq] at h
  | .null, .obj _, h => by simp [Json.beq] at h
  | .bool _, .null, h => by simp [Json.beq] at h
  | .bool _, .num _, h => by simp [Json.beq] at h
  | .bool _, .str _, h => by simp [Json.beq] at h
  | .bool _, .arr _, h => by simp [Json.beq] at h
  | .bool _, .obj _, h => by simp [Json.beq] at h
  | .num _, .null, h => by simp [Json.beq] at h
  | .num _, .bool _, h => by simp [Json.beq] at h
  | .num _, .str _, h => by simp [Json.beq] at h
  | .num _, .arr _, h => by simp [Json.beq] at h
  | .num _, .obj _, h => by simp [Json.beq] at h
  | .str _, .null, h => by simp [Json.beq] at h
  | .str _, .bool _, h => by simp [Json.beq] at h
  | .str _, .num _, h => by simp [Json.beq] at h
  | .str _, .arr _, h => by simp [Json.beq] at h
  | .str _, .obj _, h => by simp [Json.beq] at h
  | .arr _, .null, h => by simp [Json.beq] at h
  | .arr _, .bool _, h => by simp [Json.beq] at h
  | .arr _, .num _, h => by simp [Json.beq] at h
  | .arr _, .str _, h => by simp [Json.beq] at h
  | .arr _, .obj _, h => by simp [Json.beq] at h
  | .obj _, .null, h => by simp [Json.beq] at h
  | .obj _, .bool _, h => by simp [Json.beq] at h
  | .obj _, .num _, h => by simp [Json.beq] at h
  | .obj _, .str _, h => by simp [Json.beq] at h
  | .obj _, .arr _, h => by simp [Json.beq] at h

theorem Json.eqList_of_beqList : (as bs : List Json) → Json.beqList as bs = true → as = bs
  | [], [], _ => rfl
  | a :: as, b :: bs, h => by
      simp only [Json.beqList, Bool.and_eq_true] at h
      rw [Json.eq_of_beq a b h.1, Json.eqList_of_beqList as bs h.2]
  | [], _ :: _, h => by simp [Json.beqList] at h
  | _ :: _, [], h => by simp [Json.beqList] at h

theorem Json.eqFields_of_beqFields :
    (as bs : List (String × Json)) → Json.beqFields as bs = true → as = bs
  | [], [], _ => rfl
  | (k, v) :: as, (k', v') :: bs, h => by
      simp only [Json.beqFields, Bool.and_eq_true, beq_iff_eq] at h
      rw [h.1.1, Json.eq_of_beq v v' h.1.2, Json.eqFields_of_beqFields as bs h.2]
  | [], _ :: _, h => by simp [Json.beqFields] at h
  | _ :: _, [], h => by simp [Json.beqFields] at h

end

mutual

theorem Json.beq_refl : (a : Json) → Json.beq a a = true
  | .null => rfl
  | .bool _ => by simp [Json.beq]
  | .num _ => by simp [Json.beq]
  | .str _ => by simp [Json.beq]
  | .arr as => by simpa only [Json.beq] using Json.beqList_refl as
  | .obj as => by simpa only [Json.beq] using Json.beqFields_refl as

theorem Json.beqList_refl : (as : List Json) → Json.beqList as as = true
  | [] => rfl
  | a :: as => by
      simp only [Json.beqList, Bool.and_eq_true]
      exact ⟨Json.beq_refl a, Json.beqList_refl as⟩

theorem Json.beqFields_refl : (as : List (String × Json)) → Json.beqFields as as = true
  | [] => rfl
  | (k, v) :: as => by
      simp only [Json.beqFields, Bool.and_eq_true, beq_iff_eq]
      exact ⟨⟨trivial, Json.beq_refl v⟩, Json.beqFields_refl as⟩

end

instance : BEq Json := ⟨Json.beq⟩

instance : DecidableEq Json := fun a b =>
  if h : Json.beq a b = true then isTrue (Json.eq_of_beq a b h)
  else isFalse (fun hh => h (hh ▸ Json.beq_refl a))

instance : LawfulBEq Json :=
  ⟨fun h => Json.eq_of_beq _ _ h, Json.beq_refl _⟩

/-- Python exception kinds raised by the embedded code paths. -/
inductive PyErr where
  | valueError
  | attributeError
  | keyError
  | typeError
  | parserError
  deriving DecidableEq, Repr

/-- Dict key lookup: `d[k]` / `d.get(k)` on a dict.  Returns `none` for a
missing key and for non-dict receivers (where CPython would raise
`KeyError` resp. `TypeError`/`AttributeError`). -/
def Json.get : Json → String → Option Json
  | .obj kvs, key => kvs.lookup key
  | _, _ => none

/-- The keys of a JSON object, in insertion order (`dict.keys()`). -/
def Json.keys : Json → List String
  | .obj kvs => kvs.map Prod.fst
  | _ => []

/-- Occurrence of `pat` as a contiguous run inside a character list
(Python `pat in s` on strings). -/
def containsSeq (pat : List Char) : List Char → Bool
  | [] => pat.isEmpty
  | c :: rest => pat.isPrefixOf (c :: rest) || containsSeq pat rest

/-- Python's `key in node` for the node shapes the schema helpers meet:
key membership for dicts, element membership for lists, substring test
for strings.  Scalar receivers (where CPython raises `TypeError`) map to
`false`; the helpers only reach them through malformed schemas. -/
def Json.hasKey (j : Json) (key : String) : Bool :=
  match j with
  | .obj kvs => (kvs.lookup key).isSome
  | .arr xs => xs.contains (Json.str key)
  | .str s => containsSeq key.toList s.toList
  | _ => false

/-- Python truthiness of a JSON value (`bool(x)`). -/
def Json.truthy : Json → Bool
  | .null => false
  | .bool b => b
  | .num n => n ≠ 0
  | .str s => s ≠ ""
  | .arr xs => !xs.isEmpty
  | .obj kvs => !kvs.isEmpty

/-- `isinstance(x, (list, dict))`: the shapes the variant traversal
descends into. -/
def Json.isContainer : Json → Bool
  | .arr _ => true
  | .obj _ => true
  | _ => false

example : (Json.obj [("a", .num 1)]).get "a" = some (.num 1) := by decide
example : (Json.arr [.str "x"]).hasKey "x" = true := by decide

/-! ## CatalogField -/

/-- Python `s.startswith(pre)`. -/
def strStartsWith (s pre : String) : Bool :=
  pre.toList.isPrefixOf s.toList

/-- Python `s.replace(pat, rep)` on character lists: every non-overlapping
occurrence of `pat` is replaced, scanning left to right.  The guard on
`pat ≠ []` only serves termination; the module always replaces the fixed
non-empty sentinel `"0000-00-00"`. -/
def replaceSeq (pat rep : List Char) : List Char → List Char
  | [] => []
  | c :: rest =>
    if h : pat ≠ [] ∧ pat.isPrefixOf (c :: rest) then
      rep ++ replaceSeq pat rep ((c :: rest).drop pat.length)
    else
      c :: replaceSeq pat rep rest
termination_by l => l.length
decreasing_by
  · have hp : 0 < pat.length := List.length_pos.mpr h.1
    simp only [List.length_drop, List.length_cons]
    omega
  · simp

/-- Python `s.replace(pat, rep)` on strings. -/
def strReplace (s pat rep : String) : String :=
  ⟨replaceSeq pat.toList rep.toList s.toList⟩

/-- A parsed ISO-8601 date-time, the structured value produced by the
datetime coercion. -/
structure PDateTime where
  year : Nat
  month : Nat
  day : Nat
  hour : Nat
  minute : Nat
  second : Nat
  deriving DecidableEq, Repr

/-- Split a character list on a separator character (Python
`s.split(sep)` for a one-character separator). -/
def splitOnChar (sep : Char) : List Char → List (List Char)
  | [] => [[]]
  | c :: rest =>
      if c = sep then [] :: splitOnChar sep rest
      else
        match splitOnChar sep rest with
        | g :: gs => (c :: g) :: gs
        | [] => [[c]]

/-- Value of a non-empty all-digit component, `none` otherwise. -/
def parseNatComp (l : List Char) : Option Nat :=
  if !l.isEmpty && l.all Char.isDigit then
    some (l.foldl (fun a c => a * 10 + (c.toNat - 48)) 0)
  else none

/-- Calendar-date component `YYYY-MM-DD`. -/
def parseDateComp (l : List Char) : Option (Nat × Nat × Nat) :=
  match splitOnChar '-' l with
  | [y, m, d] => do
      let y ← parseNatComp y
      let m ← parseNatComp m
      let d ← parseNatComp d
      if 1 ≤ m && m ≤ 12 && 1 ≤ d && d ≤ 31 then some (y, m, d) else none
  | _ => none

/-- Time-of-day component `HH:MM:SS`. -/
def parseTimeComp (l : List Char) : Option (Nat × Nat × Nat) :=
  match splitOnChar ':' l with
  | [h, m, sec] => do
      let h ← parseNatComp h
      let m ← parseNatComp m
      let sec ← parseNatComp sec
      if h ≤ 23 && m ≤ 59 && sec ≤ 59 then some (h, m, sec) else none
  | _ => none

/-- Modelled from the spec: `pendulum.parse`, the external ISO-8601-tolerant
datetime parser called by `CatalogField._parse_value` (the `pendulum`
library is not part of this repository).  Modelled on the input shapes the
module exercises — `YYYY-MM-DD`, optionally followed by `THH:MM:SS`.  The
claims only rely on it being a deterministic function of its input string
that accepts valid ISO-8601 date-times and rejects malformed ones. -/
def pendulum_parse (s : String) : Except PyErr PDateTime :=
  match splitOnChar 'T' s.toList with
  | [d] =>
      match parseDateComp d with
      | some (y, m, dd) => .ok ⟨y, m, dd, 0, 0, 0⟩
      | none => .error .parserError
  | [d, t] =>
      match parseDateComp d, parseTimeComp t with
      | some (y, m, dd), some (h, mi, sec) => .ok ⟨y, m, dd, h, mi, sec⟩
      | _, _ => .error .parserError
  | _ => .error .parserError

/-- The result of `CatalogField._parse_value`: either the raw JSON value
passed through unchanged, or a structured date-time from the coercion. -/
inductive Parsed where
  | raw (v : Json)
  | datetime (d : PDateTime)
  deriving DecidableEq, Repr

/-- `CatalogField`: a bound pair of resolved schema node and property
path (`json_schema_helper.py`, class `CatalogField`). -/
structure CatalogField where
  schema : Json
  path : List String

/-- `CatalogField._detect_formats` (the Lean name drops the leading
underscore).  Crucial detail of the source: the call is
`self.schema.get("format", self.schema["type"])`, and Python evaluates the
default argument `self.schema["type"]` *before* `.get` runs — so a schema
with no `type` key raises `KeyError` (caught, leaving `format_ = []`) even
when a `format` key is present.  `set(format_)` is modelled as the list
itself: every consumer only tests membership. -/
def CatalogField.detect_formats (f : CatalogField) : List Json :=
  match f.schema.get "type" with
  | none => []
  | some ty =>
      let format_ := (f.schema.get "format").getD ty
      match format_ with
      | .arr xs => xs
      | x => [x]

/-- `self.formats`, computed at construction from the schema. -/
def CatalogField.formats (f : CatalogField) : List Json :=
  f.detect_formats

/-- `self.formats.intersection({"datetime", "date-time", "date"})` is
non-empty. -/
def CatalogField.hasDateFormat (f : CatalogField) : Bool :=
  f.formats.any fun x =>
    x == Json.str "datetime" || x == Json.str "date-time" || x == Json.str "date"

/-- `CatalogField._parse_value` (Lean name drops the leading underscore).
The null guard raises `ValueError` only when `"null"` is not an accepted
format; afterwards `value.startswith(...)` is called unconditionally, so a
`None` (or any non-string) value raises `AttributeError` at that point. -/
def CatalogField.parse_value (f : CatalogField) (value : Json) : Except PyErr Parsed :=
  if f.hasDateFormat then
    if value == Json.null && !f.formats.contains (Json.str "null") then
      .error .valueError
    else
      match value with
      | .str s =>
          let s := if strStartsWith s "0000-00-00" then
              strReplace s "0000-00-00" "0001-01-01" else s
          match pendulum_parse s with
          | .ok d => .ok (.datetime d)
          | .error e => .error e
      | _ => .error .attributeError
  else
    .ok (.raw value)

/-- One step of `reduce(lambda data, key: data[key], path, record)`:
subscripting a record node by a string key (`KeyError` for a missing dict
key, `TypeError` for string-subscripting a list or scalar). -/
def pyIndex (data : Json) (key : String) : Except PyErr Json :=
  match data with
  | .obj kvs =>
      match kvs.lookup key with
      | some v => .ok v
      | none => .error .keyError
  | _ => .error .typeError

/-- `CatalogField.parse`.  `path = path or self.path`: both `None` and the
empty list are falsy in Python, so either falls back to the field's stored
path. -/
def CatalogField.parse (f : CatalogField) (record : Json)
    (path : Option (List String)) : Except PyErr Parsed := do
  let p := match path with
    | none => f.path
    | some q => if q.isEmpty then f.path else q
  let value ← p.foldlM pyIndex record
  f.parse_value value

instance {ε α : Type} [DecidableEq ε] [DecidableEq α] : DecidableEq (Except ε α) := fun a b =>
  match a, b with
  | .ok x, .ok y =>
      if h : x = y then isTrue (by rw [h]) else isFalse (by simp [h])
  | .error x, .error y =>
      if h : x = y then isTrue (by rw [h]) else isFalse (by simp [h])
  | .ok _, .error _ => isFalse (fun h => Except.noConfusion h)
  | .error _, .ok _ => isFalse (fun h => Except.noConfusion h)

example :
    pendulum_parse "0001-01-01T00:00:00" = .ok ⟨1, 1, 1, 0, 0, 0⟩ := by decide
example :
    strReplace "0000-00-00T12:30:09" "0000-00-00" "0001-01-01" =
      "0001-01-01T12:30:09" := by
  simp [strReplace, replaceSeq]

/-! ## JsonSchemaHelper: navigation -/

/-- `JsonSchemaHelper.get_ref`: follows a local pointer such as
`#/definitions/x` from the schema root.  `path.split("/")[1:]` discards
the leading root marker; each remaining segment subscripts the current
node.  A non-string pointer, a missing key or a non-dict node is an error
(`none`). -/
def get_ref (schema : Json) (ref : Json) : Option Json :=
  match ref with
  | .str s =>
      ((splitOnChar '/' s.toList).drop 1).foldlM
        (fun node seg => node.get (String.mk seg)) schema
  | _ => none

/-- `JsonSchemaHelper.get_property`: resolves a property path from the
schema root; at each segment, a node carrying a `$ref` key is first
resolved through `get_ref`, then the walk descends through
`properties[segment]`.  A missing `properties` key or segment is an error
(`none`). -/
def get_property (schema : Json) (path : List String) : Option Json :=
  go schema path
where
  go : Json → List String → Option Json
  | node, [] => some node
  | node, seg :: rest => do
      let node ←
        if node.hasKey "$ref" then do
          let r ← node.get "$ref"
          get_ref schema r
        else some node
      let props ← node.get "properties"
      let next ← props.get seg
      go next rest

/-- `JsonSchemaHelper.field`: resolve the property node and bind it with
the path into a `CatalogField`. -/
def field (schema : Json) (path : List String) : Option CatalogField :=
  (get_property schema path).map fun node => ⟨node, path⟩

/-! ## JsonSchemaHelper: variant discovery -/

/-- `path and path[-1] in ["oneOf", "anyOf"]`.  Path segments are JSON
values, not strings: when the traversal walks into a list it appends the
list *element itself* to the path (see `traverseElems`). -/
def isVariantPath (path : List Json) : Bool :=
  match path.getLast? with
  | some x => x == Json.str "oneOf" || x == Json.str "anyOf"
  | none => false

mutual

/-- `traverse_schema` inside `JsonSchemaHelper.find_variant_paths`, dict
case: `for item in _schema` yields the keys, `next_obj = _schema[item]`,
and only list/dict children are entered, with the key appended to the
path.  The current path is recorded first when its last segment is
`oneOf`/`anyOf` (pre-order), and descent continues after a match. -/
def traverseSchema : Json → List Json → List (List Json)
  | .obj kvs, path =>
      (if isVariantPath path then [path] else []) ++ traverseFields kvs path
  | .arr xs, path =>
      (if isVariantPath path then [path] else []) ++ traverseElems xs path
  | _, path => if isVariantPath path then [path] else []

def traverseFields : List (String × Json) → List Json → List (List Json)
  | [], _ => []
  | (k, v) :: rest, path =>
      (if v.isContainer then traverseSchema v (path ++ [Json.str k]) else []) ++
        traverseFields rest path

/-- List case of `traverse_schema`: `for item in _schema` yields the
*elements*, `next_obj = item`, and the recursive call extends the path
with `item` — the element value itself, not its index. -/
def traverseElems : List Json → List Json → List (List Json)
  | [], _ => []
  | v :: rest, path =>
      (if v.isContainer then traverseSchema v (path ++ [v]) else []) ++
        traverseElems rest path

end

/-- `JsonSchemaHelper.find_variant_paths`. -/
def find_variant_paths (schema : Json) : List (List Json) :=
  traverseSchema schema []

/-! ## JsonSchemaHelper: variant validation -/

/-- `dpath.util.get(self._schema, "/".join(segments))`: descend by
segments — dict keys for objects, numeric segments for list indexes.
`none` models the `KeyError` dpath raises for an unmatched glob; the empty
segment list (a root-level variant path, giving the empty glob) also
raises. -/
def dpath_get (schema : Json) (segs : List String) : Option Json :=
  match segs with
  | [] => none
  | _ =>
      segs.foldlM
        (fun node seg =>
          match node with
          | .obj kvs => kvs.lookup seg
          | .arr xs => (parseNatComp seg.toList).bind fun i => xs.get? i
          | _ => none)
        schema

/-- `get_top_level_item` plus the `$ref` hop inside
`validate_variant_paths`: the container one level above the variant site,
with a `$ref`-carrying container re-read from `definitions` by the
pointer's trailing name. -/
def resolveTopLevel (schema : Json) (variant_path : List String) : Except String Json :=
  match dpath_get schema variant_path.dropLast with
  | none => .error "KeyError: container path not found"
  | some top =>
      if top.hasKey "$ref" then
        match top.get "$ref" with
        | some (.str r) =>
            match schema.get "definitions" with
            | some defs =>
                match defs.get (String.mk ((splitOnChar '/' r.toList).getLastD [])) with
                | some t => .ok t
                | none => .error "KeyError: definition not found"
            | none => .error "KeyError: no definitions section"
        | _ => .error "TypeError: ref pointer is not a string"
      else .ok top

/-- `variant_props` / `common_props`: the property-name set of every
branch, intersected across all branches (`set.intersection(*variant_props)`;
property order of the first branch is kept, which is irrelevant to every
consumer — only membership and emptiness are tested). -/
def commonProps (variants : List Json) : Option (List String) :=
  match variants.map (fun v => ((v.get "properties").getD (.obj [])).keys) with
  | [] => none
  | p :: ps => some (ps.foldl (fun acc q => acc.filter fun k => q.contains k) p)

/-- The final guard of the validation: some property name common to every
branch carries a `const` keyword in every branch
(`any([all(["const" in var["properties"][prop] for var in variants]) for prop in common_props])`). -/
def commonConstExists (variants : List Json) : Bool :=
  match commonProps variants with
  | none => false
  | some common =>
      common.any fun prop =>
        variants.all fun v =>
          ((((v.get "properties").getD (.obj [])).get prop).getD Json.null).hasKey "const"

/-- One iteration of the loop in `JsonSchemaHelper.validate_variant_paths`.
Paths are typed as string lists because the source feeds them to
`"/".join`, which raises on any non-string segment.  Checks run in source
order and the first failure aborts; lookup exceptions
(`KeyError`/`TypeError`) and `assert` failures both abort, and the
messages keep the failure modes apart.  An empty variant list reaches
`set.intersection()` with no arguments, a `TypeError`. -/
def validate_variant_path (schema : Json) (variant_path : List String) :
    Except String Unit :=
  match resolveTopLevel schema variant_path with
  | .error e => .error e
  | .ok top =>
      if top.get "type" != some (Json.str "object") then
        .error "AssertionError: the top-level definition in a oneOf block should have type: object"
      else
        match dpath_get schema variant_path with
        | none => .error "KeyError: variant path not found"
        | some (.arr variants) =>
            if !(variants.all fun v => v.hasKey "properties") then
              .error "AssertionError: each item in the oneOf array should be a property with type object"
            else
              match commonProps variants with
              | none => .error "TypeError: set.intersection requires at least one set"
              | some common =>
                  if common.isEmpty then
                    .error "AssertionError: there should be at least one common property for oneOf subobjects"
                  else if !commonConstExists variants then
                    .error "AssertionError: no common property has a const keyword"
                  else .ok ()
        | some _ => .error "TypeError: variant site is not a list"

/-- `JsonSchemaHelper.validate_variant_paths`: validates every discovered
path in order; the first raised failure aborts the loop. -/
def validate_variant_paths (schema : Json) (variant_paths : List (List String)) :
    Except String Unit :=
  match variant_paths with
  | [] => .ok ()
  | p :: rest =>
      match validate_variant_path schema p with
      | .ok _ => validate_variant_paths schema rest
      | .error e => .error e

/-! ## Structure projection: records -/

mutual

/-- `_traverse_obj_and_get_path` inside `get_object_structure`: dicts
expand per key (path extended by `/key`); a non-empty list contributes a
single synthetic `/[]` segment applied to its *first* element only;
anything else (scalars and the empty list included) is a leaf recording
the accumulated path. -/
def objStructure : Json → String → List String
  | .obj kvs, path => objStructureFields kvs path
  | .arr (x :: _), path => objStructure x (path ++ "/[]")
  | _, path => [path]

def objStructureFields : List (String × Json) → String → List String
  | [], _ => []
  | (k, v) :: rest, path =>
      objStructure v (path ++ "/" ++ k) ++ objStructureFields rest path

end

/-- `get_object_structure`: leaf paths of a concrete record, in traversal
order. -/
def get_object_structure (obj : Json) : List String :=
  objStructure obj ""

/-! ## Structure projection: schemas -/

mutual

/-- Size measure used to justify termination of the schema scan (the scan
recurses on freshly merged objects, not on subterms). -/
def jsize : Json → Nat
  | .obj kvs => 1 + jsizeFields kvs
  | .arr xs => 1 + jsizeElems xs
  | _ => 1

def jsizeFields : List (String × Json) → Nat
  | [] => 0
  | (_, v) :: rest => 1 + jsize v + jsizeFields rest

def jsizeElems : List Json → Nat
  | [] => 0
  | v :: rest => 1 + jsize v + jsizeElems rest

end

theorem jsizeFields_lookup {kvs : List (String × Json)} {k : String} {v : Json}
    (h : kvs.lookup k = some v) : 1 + jsize v ≤ jsizeFields kvs := by
  induction kvs with
  | nil => simp [List.lookup] at h
  | cons kv rest ih =>
      obtain ⟨k₁, v₁⟩ := kv
      by_cases hk : k = k₁
      · subst hk
        simp only [List.lookup, beq_self_eq_true] at h
        injection h with hv
        rw [← hv]
        simp only [jsizeFields]
        omega
      · have hbk : (k == k₁) = false := beq_eq_false_iff_ne.mpr hk
        simp only [List.lookup, hbk] at h
        have := ih h
        simp only [jsizeFields]
        omega

theorem jsize_get_lt {sub : Json} {k : String} {v : Json}
    (h : sub.get k = some v) : 1 + jsize v < jsize sub := by
  cases sub with
  | obj kvs =>
      simp only [Json.get] at h
      have := jsizeFields_lookup h
      simp only [jsize]
      omega
  | null => simp [Json.get] at h
  | bool b => simp [Json.get] at h
  | num n => simp [Json.get] at h
  | str s => simp [Json.get] at h
  | arr xs => simp [Json.get] at h

theorem jsizeElems_mem {xs : List Json} {x : Json} (h : x ∈ xs) :
    1 + jsize x ≤ jsizeElems xs := by
  induction xs with
  | nil => cases h
  | cons y rest ih =>
      cases h with
      | head =>
          simp only [jsizeElems]
          omega
      | tail _ hmem =>
          have := ih hmem
          simp only [jsizeElems]
          omega

/-- `{"type": "object", **s}`: dict merge in which `s`'s keys take
precedence and the `type` key keeps its first-insertion position.  A
non-dict `s` would raise `TypeError` in Python; it is returned unchanged
here (the scan only merges branch elements of well-formed variant
lists). -/
def mergeTypeObject : Json → Json
  | .obj kvs =>
      .obj (("type", (kvs.lookup "type").getD (.str "object")) ::
        kvs.filter fun kv => kv.1 != "type")
  | j => j

theorem jsizeFields_filter_le (p : String × Json → Bool) (kvs : List (String × Json)) :
    jsizeFields (kvs.filter p) ≤ jsizeFields kvs := by
  induction kvs with
  | nil => simp
  | cons kv rest ih =>
      rw [List.filter_cons]
      cases hp : p kv with
      | true =>
          simp only [if_pos rfl, hp, if_true, jsizeFields]
          obtain ⟨k₁, v₁⟩ := kv
          simp only [jsizeFields]
          omega
      | false =>
          simp only [hp, Bool.false_eq_true, if_false]
          obtain ⟨k₁, v₁⟩ := kv
          simp only [jsizeFields]
          omega

theorem jsize_lookup_filter {kvs : List (String × Json)} {k : String} {v : Json}
    (h : kvs.lookup k = some v) :
    jsize v + jsizeFields (kvs.filter fun kv => kv.1 != k) ≤ jsizeFields kvs := by
  induction kvs with
  | nil => simp [List.lookup] at h
  | cons kv rest ih =>
      obtain ⟨k₁, v₁⟩ := kv
      by_cases hk : k = k₁
      · subst hk
        simp only [List.lookup, beq_self_eq_true] at h
        injection h with hv
        rw [← hv]
        rw [List.filter_cons]
        have hc : ((k, v₁).1 != k) = false := by simp
        simp only [hc, Bool.false_eq_true, if_false]
        have := jsizeFields_filter_le (fun kv : String × Json => kv.1 != k) rest
        simp only [jsizeFields]
        omega
      · have hbk : (k == k₁) = false := beq_eq_false_iff_ne.mpr hk
        simp only [List.lookup, hbk] at h
        rw [List.filter_cons]
        have hc : ((k₁, v₁).1 != k) = true := by
          simp only [bne_iff_ne, ne_eq]
          exact fun hh => hk (hh.symm)
        simp only [hc, if_true]
        have := ih h
        simp only [jsizeFields]
        omega

theorem jsize_mergeTypeObject (s : Json) : jsize (mergeTypeObject s) ≤ jsize s + 2 := by
  cases s with
  | obj kvs =>
      cases hl : kvs.lookup "type" with
      | none =>
          have := jsizeFields_filter_le (fun kv : String × Json => kv.1 != "type") kvs
          simp [mergeTypeObject, hl, jsize, jsizeFields]
          omega
      | some v =>
          have := jsize_lookup_filter hl
          simp [mergeTypeObject, hl, jsize, jsizeFields]
          omega
  | null => simp [mergeTypeObject]
  | bool b => simp [mergeTypeObject]
  | num n => simp [mergeTypeObject]
  | str t => simp [mergeTypeObject]
  | arr xs => simp [mergeTypeObject]

/-- `subschema.get("type", ["null"])`, a non-list value wrapped into a
singleton list. -/
def effectiveTypes (subschema : Json) : List Json :=
  match (subschema.get "type").getD (.arr [.str "null"]) with
  | .arr xs => xs
  | x => [x]

/-- `subschema.get("oneOf") or subschema.get("anyOf")`: Python `or` falls
through on falsy values (`None`, the empty list, …). -/
def oneOfOrAnyOf (subschema : Json) : Option Json :=
  match subschema.get "oneOf" with
  | some v => if v.truthy then some v else subschema.get "anyOf"
  | none => subschema.get "anyOf"

theorem oneOfOrAnyOf_get {sub v : Json} (h : oneOfOrAnyOf sub = some v) :
    sub.get "oneOf" = some v ∨ sub.get "anyOf" = some v := by
  unfold oneOfOrAnyOf at h
  split at h
  · rename_i w heq
    split at h
    · exact Or.inl (heq.trans h)
    · exact Or.inr h
  · exact Or.inr h

theorem jsize_items_lt {sub : Json}
    (h : (effectiveTypes sub).contains (Json.str "array") = true) :
    jsize ((sub.get "items").getD (Json.obj [])) < jsize sub := by
  cases hty : sub.get "type" with
  | none =>
      exfalso
      rw [effectiveTypes, hty] at h
      exact absurd h (by decide)
  | some tv =>
      have h3 : 1 + jsize tv < jsize sub := jsize_get_lt hty
      cases hit : sub.get "items" with
      | none =>
          simp only [Option.getD, jsize, jsizeFields]
          omega
      | some it =>
          have := jsize_get_lt hit
          simp only [Option.getD]
          omega

theorem jsizeFields_mem {kvs : List (String × Json)} {kv : String × Json} (h : kv ∈ kvs) :
    1 + jsize kv.2 ≤ jsizeFields kvs := by
  induction kvs with
  | nil => cases h
  | cons y rest ih =>
      cases h with
      | head =>
          obtain ⟨k₁, v₁⟩ := kv
          simp only [jsizeFields]
          omega
      | tail _ hmem =>
          have := ih hmem
          obtain ⟨k₁, v₁⟩ := y
          simp only [jsizeFields]
          omega

/-- `_scan_schema` inside `get_expected_schema_structure`.  `oneOf`/`anyOf`
sites recurse into every branch merged with `{"type": "object"}`; effective
type `object` recurses per property unless `properties` is missing or falsy
(then the current path is a leaf); effective type `array` recurses into
`items` (or the empty schema `{}` when absent) with `/[]` appended;
anything else records the current path as a leaf.  A truthy non-dict
`properties` value would raise `AttributeError` in Python (`.items()`);
that malformed case contributes nothing here. -/
def scan_schema (subschema : Json) (path : String) : List String :=
  if subschema.hasKey "oneOf" || subschema.hasKey "anyOf" then
    match hb : oneOfOrAnyOf subschema with
    | some (.arr branches) =>
        branches.attach.flatMap fun s => scan_schema (mergeTypeObject s.1) path
    | _ => []
  else
    if (effectiveTypes subschema).contains (Json.str "object") then
      match hp : subschema.get "properties" with
      | some (.obj kvs) =>
          if (Json.obj kvs).truthy then
            kvs.attach.flatMap fun kv => scan_schema kv.1.2 (path ++ "/" ++ kv.1.1)
          else [path]
      | some p => if p.truthy then [] else [path]
      | none => [path]
    else if harr : (effectiveTypes subschema).contains (Json.str "array") then
      scan_schema ((subschema.get "items").getD (Json.obj [])) (path ++ "/[]")
    else [path]
termination_by jsize subschema
decreasing_by
  · have hor := oneOfOrAnyOf_get hb
    have h1 : 1 + jsize (Json.arr branches) < jsize subschema := by
      cases hor with
      | inl hg => exact jsize_get_lt hg
      | inr hg => exact jsize_get_lt hg
    have h2 := jsizeElems_mem s.2
    have h3 := jsize_mergeTypeObject s.1
    simp only [jsize] at h1
    omega
  · have h1 := jsize_get_lt hp
    have h2 := jsizeFields_mem kv.2
    simp only [jsize] at h1
    omega
  · exact jsize_items_lt harr

/-- `get_expected_schema_structure`.  The source first rewrites the tree
with `JsonRef.replace_refs` (the external `jsonref` library, identity on
`$ref`-free schemas); the embedding takes the already-dereferenced tree as
input. -/
def get_expected_schema_structure (schema : Json) : List String :=
  scan_schema schema ""

/-! ## Shared helper lemmas -/

theorem isPrefixOf_append_self (l t : List Char) : l.isPrefixOf (l ++ t) = true :=
  List.isPrefixOf_iff_prefix.mpr ⟨t, rfl⟩

/-- Replacing a pattern that sits at the head of the input rewrites that
occurrence and continues on the tail. -/
theorem replaceSeq_head_match (pat rep t : List Char) (hne : pat ≠ []) :
    replaceSeq pat rep (pat ++ t) = rep ++ replaceSeq pat rep t := by
  match pat, hne with
  | p₀ :: p', _ =>
      rw [List.cons_append]
      simp only [replaceSeq]
      rw [dif_pos ⟨List.cons_ne_nil p₀ p', isPrefixOf_append_self (p₀ :: p') t⟩]
      rw [← List.cons_append, List.drop_left]

/-- A list with no occurrence of the pattern is left unchanged. -/
theorem replaceSeq_no_occurrence (pat rep : List Char) :
    ∀ t, containsSeq pat t = false → replaceSeq pat rep t = t := by
  intro t
  induction t with
  | nil => intro h; simp [replaceSeq]
  | cons c rest ih =>
      intro h
      rw [containsSeq, Bool.or_eq_false_iff] at h
      simp only [replaceSeq]
      rw [dif_neg]
      · rw [ih h.2]
      · intro hc
        rw [h.1] at hc
        exact absurd hc.2 (by simp)

/-- The rewritten prefix `0001-01-01` can never itself start with the
sentinel `0000-00-00`, whatever follows. -/
theorem sentinel_never_head (t : List Char) :
    ("0000-00-00".toList).isPrefixOf ("0001-01-01".toList ++ t) = false := by
  have h1 : "0000-00-00".toList = ['0','0','0','0','-','0','0','-','0','0'] := by decide
  have h2 : "0001-01-01".toList = ['0','0','0','1','-','0','1','-','0','1'] := by decide
  rw [h1, h2]
  by_contra hc
  rw [Bool.not_eq_false, List.isPrefixOf_iff_prefix] at hc
  obtain ⟨u, hu⟩ := hc
  simp only [List.cons_append, List.nil_append] at hu
  injection hu with e1 hu
  injection hu with e2 hu
  injection hu with e3 hu
  injection hu with e4 hu
  exact absurd e4 (by decide)

/-- On a string value, the date coercion is: rewrite the sentinel prefix
when present, then run the external parser. -/
theorem parse_value_str (f : CatalogField) (s : String) (hdate : f.hasDateFormat = true) :
    f.parse_value (.str s) =
      (match pendulum_parse (if strStartsWith s "0000-00-00" then
          strReplace s "0000-00-00" "0001-01-01" else s) with
        | .ok d => Except.ok (.datetime d)
        | .error e => Except.error e) := by
  unfold CatalogField.parse_value
  rw [if_pos hdate]
  have hfalse : (Json.str s == Json.null && !f.formats.contains (Json.str "null")) = false := by
    have hb : (Json.str s == Json.null) = false := rfl
    rw [hb, Bool.false_and]
  rw [hfalse]
  simp only [Bool.false_eq_true, if_false]

/-- Manual descent through `properties[segment]` for each path segment,
with no `$ref` handling: the right-hand side of the C3 comparison. -/
def plainDescend (node : Json) (path : List String) : Option Json :=
  path.foldlM (fun n seg => (n.get "properties").bind fun props => props.get seg) node

/-- The navigation the spec describes for schemas with a single root
`$ref`: resolve the root reference via `get_ref`, then descend manually
through `properties[segment]`. -/
def resolve_ref_then_descend (schema : Json) (path : List String) : Option Json := do
  let r ← schema.get "$ref"
  let target ← get_ref schema r
  plainDescend target path

theorem plainDescend_cons (node : Json) (seg : String) (rest : List String) :
    plainDescend node (seg :: rest) =
      ((node.get "properties").bind fun props => props.get seg).bind fun next =>
        plainDescend next rest := by
  unfold plainDescend
  rw [List.foldlM_cons]
  rfl

theorem hasKey_of_get {j : Json} {k : String} {v : Json} (h : j.get k = some v) :
    j.hasKey k = true := by
  cases j with
  | obj kvs => simp only [Json.get] at h; simp [Json.hasKey, h]
  | null => simp [Json.get] at h
  | bool b => simp [Json.get] at h
  | num n => simp [Json.get] at h
  | str s => simp [Json.get] at h
  | arr xs => simp [Json.get] at h

/-- When no node met along the walk carries a `$ref` key, the property
walk of `get_property` coincides with plain `properties` descent. -/
theorem go_eq_plainDescend (schema : Json) :
    ∀ (path : List String) (node : Json),
      (∀ p n, p <+: path → plainDescend node p = some n → n.hasKey "$ref" = false) →
      get_property.go schema node path = plainDescend node path := by
  intro path
  induction path with
  | nil => intro node _; rfl
  | cons seg rest ih =>
      intro node h
      have h0 : node.hasKey "$ref" = false :=
        h [] node List.nil_prefix rfl
      rw [get_property.go, h0]
      simp only [Bool.false_eq_true, if_false, Option.bind_eq_bind, Option.some_bind,
        plainDescend_cons]
      cases hp1 : node.get "properties" with
      | none => simp only [Option.none_bind]
      | some props =>
          simp only [Option.some_bind]
          cases hp2 : props.get seg with
          | none => simp only [Option.none_bind]
          | some next =>
              simp only [Option.some_bind]
              apply ih
              intro p n hpre hpd
              have hfull : plainDescend node (seg :: p) = some n := by
                rw [plainDescend_cons, hp1]
                simp only [Option.some_bind]
                rw [hp2]
                simp only [Option.some_bind]
                exact hpd
              exact h (seg :: p) n (List.cons_prefix_cons.mpr ⟨rfl, hpre⟩) hfull

/-- Normalization of a `format`/`type` value to a set, as the spec words
it: a list value becomes the set of its elements, a scalar a singleton. -/
def normalizeFormatValue : Json → List Json
  | .arr xs => xs
  | x => [x]

/-- The format set as the spec words it (the C2 comparison): the
normalized `format` value if the key is present, else the normalized
`type` value, else empty. -/
def formats_spec (schema : Json) : List Json :=
  match schema.get "format" with
  | some f => normalizeFormatValue f
  | none =>
      match schema.get "type" with
      | some t => normalizeFormatValue t
      | none => []

/-! ## Concrete inputs used by the claims -/

/-- A field whose schema declares format `date-time` (and a `type` key, so
format detection actually reads the `format` key). -/
def dtField : CatalogField :=
  ⟨.obj [("type", .str "string"), ("format", .str "date-time")], ["x"]⟩

/-- A field whose format set is `{"date-time", "null"}`. -/
def dtNullField : CatalogField :=
  ⟨.obj [("type", .str "string"), ("format", .arr [.str "date-time", .str "null"])], ["x"]⟩

/-- A schema with a root `$ref` into its own `definitions` section. -/
def refSchema : Json := .obj [("$ref", .str "#/definitions/d"),
  ("definitions", .obj [("d", .obj [("properties", .obj [("a", .obj [("type", .str "string")])])])])]

/-- The element of the `anyOf` list in `exVariantSchema`. -/
def exVariantInner : Json := .obj [("b", .obj [("oneOf", .arr [.obj [("t", .num 1)]])])]

/-- `{"a": {"anyOf": [{"b": {"oneOf": [{"t": 1}]}}]}}`: a `oneOf` nested
below an `anyOf`. -/
def exVariantSchema : Json := .obj [("a", .obj [("anyOf", .arr [exVariantInner])])]

/-- A schema whose container at `c` follows the discriminated-union
convention: both branches declare a `mode` property with a `const`. -/
def exGoodSchema : Json := .obj [("c", .obj [("type", .str "object"),
  ("oneOf", .arr [.obj [("properties", .obj [("mode", .obj [("const", .str "a")])])],
                  .obj [("properties", .obj [("mode", .obj [("const", .str "b")])])]])])]

/-- The same container with the `mode` `const` keywords removed. -/
def exBadSchema : Json := .obj [("c", .obj [("type", .str "object"),
  ("oneOf", .arr [.obj [("properties", .obj [("mode", .obj [])])],
                  .obj [("properties", .obj [("mode", .obj [])])]])])]

/-! ## Claims -/

/-- Claim C1.  The claim states that for a `CatalogField` whose format set
contains `date-time` and `null`, parsing a record with a null value at the
path returns null unchanged with no error.  The code instead reaches
`value.startswith("0000-00-00")` after the null guard passes, and calling
`startswith` on Python `None` raises `AttributeError`: this theorem
evaluates the embedded code at that failing input. -/
theorem C1_null_with_null_format_attributeError :
    Json.str "date-time" ∈ dtNullField.formats ∧
    Json.str "null" ∈ dtNullField.formats ∧
    dtNullField.parse (.obj [("x", Json.null)]) none = .error .attributeError := by
  decide

/-- Claim C2, counterexample.  The claim says a node with `format` present
but `type` absent yields the singleton format set; on the code the eagerly
evaluated default `schema["type"]` raises `KeyError` first, so the set is
empty. -/
theorem C2_counterexample_format_without_type :
    Json.str "date-time" ∈ formats_spec (Json.obj [("format", Json.str "date-time")]) ∧
    Json.str "date-time" ∉
      (CatalogField.mk (Json.obj [("format", Json.str "date-time")]) []).formats := by
  decide

/-- Claim C2, amended.  The format set equals the normalized
format-else-type set exactly when the node has a `type` key; when `type`
is absent the set is empty regardless of `format` (the dict-get default
`schema["type"]` is evaluated eagerly and its `KeyError` clears the
formats). -/
theorem C2_formats_depend_on_type_key (f : CatalogField) :
    (f.schema.hasKey "type" = true → f.formats = formats_spec f.schema) ∧
    (f.schema.hasKey "type" = false → f.formats = []) := by
  obtain ⟨schema, path⟩ := f
  constructor
  · intro h
    cases schema with
    | obj kvs =>
        simp only [Json.hasKey] at h
        simp only [CatalogField.formats, CatalogField.detect_formats, formats_spec, Json.get]
        cases hty : kvs.lookup "type" with
        | none => rw [hty] at h; simp at h
        | some tv =>
            cases hfmt : kvs.lookup "format" with
            | none =>
                simp only [hty, hfmt, Option.getD]
                cases tv <;> rfl
            | some fv =>
                simp only [hty, hfmt, Option.getD]
                cases fv <;> rfl
    | null => simp [Json.hasKey] at h
    | bool b => simp [Json.hasKey] at h
    | num n => simp [Json.hasKey] at h
    | str s => rfl
    | arr xs => rfl
  · intro h
    cases schema with
    | obj kvs =>
        simp only [Json.hasKey] at h
        cases hty : kvs.lookup "type" with
        | none =>
            simp only [CatalogField.formats, CatalogField.detect_formats, Json.get, hty]
        | some tv => rw [hty] at h; simp at h
    | null => rfl
    | bool b => rfl
    | num n => rfl
    | str s => rfl
    | arr xs => rfl

theorem C2_witness :
    (CatalogField.mk (Json.obj [("type", Json.str "string"),
        ("format", Json.str "date-time")]) []).formats =
      formats_spec (Json.obj [("type", Json.str "string"), ("format", Json.str "date-time")]) ∧
    (CatalogField.mk (Json.obj [("format", Json.str "date-time")]) []).formats = [] :=
  ⟨(C2_formats_depend_on_type_key ⟨_, _⟩).1 (by decide),
   (C2_formats_depend_on_type_key ⟨_, _⟩).2 (by decide)⟩

/-- Claim C3, counterexample.  The empty property path is valid in the
referenced node, yet `get_property` returns the root node with its `$ref`
unresolved, while resolving the root `$ref` and then descending returns
the referenced node: the two disagree on the empty path. -/
theorem C3_counterexample_empty_path :
    refSchema.hasKey "$ref" = true ∧
    (resolve_ref_then_descend refSchema []).isSome = true ∧
    get_property refSchema [] ≠ resolve_ref_then_descend refSchema [] := by
  refine ⟨rfl, rfl, ?_⟩
  decide

/-- Claim C3, amended.  For a schema whose root carries a `$ref` resolving
inside the tree, and every *non-empty* property path along which no
reached node carries another `$ref` (one indirection at the root),
`get_property` returns the same node as resolving the root `$ref` via
`get_ref` and then descending manually through `properties[segment]`. -/
theorem C3_single_ref_resolution_equiv (schema r target : Json) (path : List String)
    (hr : schema.get "$ref" = some r)
    (ht : get_ref schema r = some target)
    (hne : path ≠ [])
    (hnoref : ∀ p n, p <+: path → p ≠ [] → plainDescend target p = some n →
        n.hasKey "$ref" = false) :
    get_property schema path = resolve_ref_then_descend schema path := by
  have hrds : resolve_ref_then_descend schema path = plainDescend target path := by
    unfold resolve_ref_then_descend
    rw [hr]
    simp only [Option.bind_eq_bind, Option.some_bind]
    rw [ht]
    simp only [Option.bind_eq_bind, Option.some_bind]
  rw [hrds]
  match path, hne with
  | seg :: rest, _ =>
    have hk : schema.hasKey "$ref" = true := hasKey_of_get hr
    unfold get_property
    rw [get_property.go, hk]
    simp only [if_true, Option.bind_eq_bind, Option.some_bind, hr, ht, plainDescend_cons]
    cases hp1 : target.get "properties" with
    | none => simp only [Option.none_bind]
    | some props =>
        simp only [Option.some_bind]
        cases hp2 : props.get seg with
        | none => simp only [Option.none_bind]
        | some next =>
            simp only [Option.some_bind]
            apply go_eq_plainDescend
            intro p n hpre hpd
            have hfull : plainDescend target (seg :: p) = some n := by
              rw [plainDescend_cons, hp1]
              simp only [Option.some_bind]
              rw [hp2]
              simp only [Option.some_bind]
              exact hpd
            exact hnoref (seg :: p) n (List.cons_prefix_cons.mpr ⟨rfl, hpre⟩)
              (List.cons_ne_nil seg p) hfull

theorem C3_witness :
    get_property refSchema ["a"] = resolve_ref_then_descend refSchema ["a"] := by
  apply C3_single_ref_resolution_equiv refSchema (.str "#/definitions/d")
      (.obj [("properties", .obj [("a", .obj [("type", .str "string")])])]) ["a"]
  · rfl
  · decide
  · decide
  · intro p n hp hpne hd
    obtain ⟨t, ht2⟩ := hp
    match p, hpne with
    | x :: p', _ =>
        rw [List.cons_append] at ht2
        injection ht2 with hx hrest
        have hp' : p' = [] := (List.append_eq_nil.mp hrest).1
        subst hx hp'
        rw [show plainDescend (Json.obj [("properties",
            Json.obj [("a", Json.obj [("type", Json.str "string")])])]) ["a"] =
            some (Json.obj [("type", Json.str "string")]) from by decide] at hd
        injection hd with hn
        rw [← hn]
        decide

/-- Claim C4, counterexample.  On the nested schema the claim expects the
inner path to carry the array index `"0"` as a segment; the traversal
appends the array *element itself* instead, so the claimed result is not
what `find_variant_paths` returns. -/
theorem C4_counterexample_index_segment :
    find_variant_paths exVariantSchema ≠
      [[Json.str "a", Json.str "anyOf"],
       [Json.str "a", Json.str "anyOf", Json.str "0", Json.str "b", Json.str "oneOf"]] := by
  decide

/-- Claim C4, amended.  The depth-first traversal records the current path
whenever its last segment is `oneOf`/`anyOf` and keeps descending; on the
nested schema it returns both paths, outer before inner, the inner path
carrying the traversed array element itself (not its index) as a
segment. -/
theorem C4_variant_paths_element_segment :
    find_variant_paths exVariantSchema =
      [[Json.str "a", Json.str "anyOf"],
       [Json.str "a", Json.str "anyOf", exVariantInner, Json.str "b", Json.str "oneOf"]] := by
  decide

/-- Claim C5.  Validation succeeds on the discriminated-union container
whose branches both mark `mode` with a `const`, fails on the same
container with the `const` keywords removed, and in general an accepted
path implies that some property name common to every branch carries a
`const` in every branch. -/
theorem C5_validate_discriminated_union :
    validate_variant_paths exGoodSchema [["c", "oneOf"]] = .ok () ∧
    validate_variant_paths exBadSchema [["c", "oneOf"]] ≠ .ok () ∧
    ∀ (schema : Json) (vpath : List String),
      validate_variant_path schema vpath = .ok () →
      ∃ vs, dpath_get schema vpath = some (.arr vs) ∧ commonConstExists vs = true := by
  refine ⟨by decide, by decide, ?_⟩
  intro schema vpath h
  unfold validate_variant_path at h
  split at h
  · exact Except.noConfusion h
  · split at h
    · exact Except.noConfusion h
    · split at h
      · exact Except.noConfusion h
      · rename_i variants hv
        split at h
        · exact Except.noConfusion h
        · split at h
          · exact Except.noConfusion h
          · rename_i common hc
            split at h
            · exact Except.noConfusion h
            · split at h
              · exact Except.noConfusion h
              · rename_i hconst
                refine ⟨variants, hv, ?_⟩
                simpa using hconst
      · exact Except.noConfusion h

theorem C5_witness :
    ∃ vs, dpath_get exGoodSchema ["c", "oneOf"] = some (.arr vs) ∧
      commonConstExists vs = true :=
  C5_validate_discriminated_union.2.2 exGoodSchema ["c", "oneOf"] (by decide)

/-- Claim C6.  With format `date-time`, parsing `"0000-00-00T00:00:00"`
yields the same structured value as parsing `"0001-01-01T00:00:00"`
(namely year 1, month 1, day 1, midnight); in general any string starting
with the sentinel `0000-00-00` has that prefix rewritten to `0001-01-01`
before parsing, preserving the trailing characters (stated for tails with
no further sentinel occurrence, where the global `str.replace` touches the
prefix alone). -/
theorem C6_sentinel_date_rewrite :
    dtField.parse_value (.str "0000-00-00T00:00:00") =
      dtField.parse_value (.str "0001-01-01T00:00:00") ∧
    dtField.parse_value (.str "0000-00-00T00:00:00") =
      .ok (.datetime ⟨1, 1, 1, 0, 0, 0⟩) ∧
    ∀ t : List Char, containsSeq "0000-00-00".toList t = false →
      dtField.parse_value (.str (String.mk ("0000-00-00".toList ++ t))) =
        dtField.parse_value (.str (String.mk ("0001-01-01".toList ++ t))) := by
  have hgen : ∀ t : List Char, containsSeq "0000-00-00".toList t = false →
      dtField.parse_value (.str (String.mk ("0000-00-00".toList ++ t))) =
        dtField.parse_value (.str (String.mk ("0001-01-01".toList ++ t))) := by
    intro t hnc
    have hL : strStartsWith (String.mk ("0000-00-00".toList ++ t)) "0000-00-00" = true := by
      unfold strStartsWith
      exact isPrefixOf_append_self _ _
    have hR : strStartsWith (String.mk ("0001-01-01".toList ++ t)) "0000-00-00" = false := by
      unfold strStartsWith
      exact sentinel_never_head t
    have hrepl : strReplace (String.mk ("0000-00-00".toList ++ t)) "0000-00-00" "0001-01-01" =
        String.mk ("0001-01-01".toList ++ t) := by
      unfold strReplace
      have hr : replaceSeq ("0000-00-00".toList) ("0001-01-01".toList)
          ((String.mk ("0000-00-00".toList ++ t)).toList) =
          "0001-01-01".toList ++ t := by
        show replaceSeq ("0000-00-00".toList) ("0001-01-01".toList)
          ("0000-00-00".toList ++ t) = "0001-01-01".toList ++ t
        rw [replaceSeq_head_match _ _ _ (by decide)]
        rw [replaceSeq_no_occurrence _ _ t hnc]
      rw [hr]
    rw [parse_value_str _ _ (by decide), parse_value_str _ _ (by decide)]
    rw [hL, hR, hrepl]
    simp only [Bool.false_eq_true, if_false, if_true]
  have heq : dtField.parse_value (.str "0000-00-00T00:00:00") =
      dtField.parse_value (.str "0001-01-01T00:00:00") := by
    have hs1 : String.mk ("0000-00-00".toList ++ "T00:00:00".toList) =
        "0000-00-00T00:00:00" := by decide
    have hs2 : String.mk ("0001-01-01".toList ++ "T00:00:00".toList) =
        "0001-01-01T00:00:00" := by decide
    have hv := hgen "T00:00:00".toList (by decide)
    rw [hs1, hs2] at hv
    exact hv
  refine ⟨heq, ?_, hgen⟩
  rw [heq]
  decide

theorem C6_witness :
    dtField.parse_value (.str (String.mk ("0000-00-00".toList ++ "T12:30:45".toList))) =
      dtField.parse_value (.str (String.mk ("0001-01-01".toList ++ "T12:30:45".toList))) :=
  C6_sentinel_date_rewrite.2.2 "T12:30:45".toList (by decide)

/-- Claim C7.  For a field whose format set intersects
`{datetime, date-time, date}` but lacks `null`, parsing a record whose
value at the field path is null fails with the invalid-field-value error
(`ValueError` in the source). -/
theorem C7_null_without_null_format_fails (f : CatalogField) (record : Json)
    (hdate : f.hasDateFormat = true)
    (hnull : f.formats.contains (Json.str "null") = false)
    (hval : f.path.foldlM pyIndex record = .ok Json.null) :
    f.parse record none = .error .valueError := by
  have hstep : f.parse record none = f.parse_value Json.null := by
    unfold CatalogField.parse
    simp only [hval]
    rfl
  rw [hstep]
  unfold CatalogField.parse_value
  rw [if_pos hdate]
  have hcond : (Json.null == Json.null && !f.formats.contains (Json.str "null")) = true := by
    rw [hnull]
    rfl
  rw [if_pos hcond]

theorem C7_witness :
    dtField.parse (.obj [("x", Json.null)]) none = .error .valueError :=
  C7_null_without_null_format_fails dtField (.obj [("x", Json.null)])
    (by decide) (by decide) (by decide)

/-- Claim C8.  `get_object_structure` on
`{"a": {"b": 1}, "c": [{"d": 2}]}` yields exactly `/a/b` and `/c/[]/d`;
and a non-empty list is represented by its first element alone — the tail
never influences the produced paths. -/
theorem C8_object_structure_paths :
    get_object_structure (Json.obj [("a", Json.obj [("b", Json.num 1)]),
      ("c", Json.arr [Json.obj [("d", Json.num 2)]])]) = ["/a/b", "/c/[]/d"] ∧
    ∀ (x : Json) (xs ys : List Json) (p : String),
      objStructure (Json.arr (x :: xs)) p = objStructure (Json.arr (x :: ys)) p :=
  ⟨by decide, fun _ _ _ _ => rfl⟩

/-- Claim C9.  In the schema scan (outside `oneOf`/`anyOf` sites): an
effective-type-`object` node without a `properties` key records the
current path as a single leaf with no further descent, and a node whose
effective types reach the `array` arm recurses into `items` (or the empty
schema when `items` is absent) with `/[]` appended to the path. -/
theorem C9_schema_structure_object_and_array (subschema : Json) (path : String)
    (h1 : subschema.hasKey "oneOf" = false) (h2 : subschema.hasKey "anyOf" = false) :
    ((effectiveTypes subschema).contains (Json.str "object") = true →
      subschema.get "properties" = none →
      scan_schema subschema path = [path]) ∧
    ((effectiveTypes subschema).contains (Json.str "object") = false →
      (effectiveTypes subschema).contains (Json.str "array") = true →
      scan_schema subschema path =
        scan_schema ((subschema.get "items").getD (Json.obj [])) (path ++ "/[]")) := by
  constructor
  · intro hobj hprops
    rw [scan_schema.eq_def]
    rw [h1, h2]
    simp only [Bool.or_self, Bool.false_eq_true, if_false, hobj, if_true]
    split <;> simp_all
  · intro hobj harr
    conv_lhs => rw [scan_schema.eq_def]
    rw [h1, h2]
    simp only [Bool.or_self, Bool.false_eq_true, if_false, hobj, harr, dif_pos]

theorem C9_witness :
    scan_schema (Json.obj [("type", Json.str "object"),
      ("additionalProperties", Json.obj [("type", Json.str "string")])]) "" = [""] ∧
    scan_schema (Json.obj [("type", Json.str "array")]) "/x" =
      scan_schema (Json.obj []) "/x/[]" := by
  constructor
  · exact (C9_schema_structure_object_and_array _ "" (by decide) (by decide)).1
      (by decide) (by decide)
  · have hw := (C9_schema_structure_object_and_array
        (Json.obj [("type", Json.str "array")]) "/x" (by decide) (by decide)).2
      (by decide) (by decide)
    have hitems : (((Json.obj [("type", Json.str "array")]).get "items").getD
        (Json.obj [])) = Json.obj [] := by decide
    rw [hitems] at hw
    exact hw

/-- Claim C10.  `parse` treats an explicitly supplied empty path like no
path at all: `path or self.path` is falsy on the empty list, so the
record is navigated by the field path stored on the CatalogField. -/
theorem C10_empty_path_falls_back_to_field_path (f : CatalogField) (record : Json) :
    f.parse record (some []) = f.parse record none :=
  rfl
